import Mathlib

/-!
Shallow embedding of the RARP responder in `install-server/main.go`
(repository kakwa/sun-v100-case), together with proofs about its
mapping-table parser, frame codec and dispatch loop.

Conventions:
* Go `[n]byte` / `net.HardwareAddr` / `net.IP` values are `List Nat`
  whose elements are byte values; length side conditions appear as
  theorem hypotheses.
* Go strings are `List Char` (the inputs of interest are ASCII, where
  Go byte indexing and rune iteration coincide with char lists).
* Go `map[[6]byte][4]byte` is an association list with at most one
  entry per key; `mapAssign` models map assignment `m[k] = v`
  (extensionally: remove any old binding, add the new one) and
  `mapLookup` models map indexing `m[k]`.
-/

set_option autoImplicit false

/-- EtherType constant `ETH_P_RARP = 0x8035` from main.go. -/
def ETH_P_RARP : Nat := 0x8035

/-- EtherType constant `ETH_P_IP = 0x0800` from main.go. -/
def ETH_P_IP : Nat := 0x0800

/-- Opcode constant `RARP_REQUEST = 3` from main.go. -/
def RARP_REQUEST : Nat := 3

/-- Opcode constant `RARP_REPLY = 4` from main.go. -/
def RARP_REPLY : Nat := 4

/-- Go `func htons(i uint16) uint16 { return (i<<8)&0xff00 | i>>8 }`.
`(i<<8)&0xff00` keeps the low byte of `i` shifted up, so it is
`(i % 256) * 256`, and `i>>8` on a `uint16` is `(i % 65536) / 256`;
the two summands occupy disjoint byte positions, so `|` is `+`. -/
def htons (i : Nat) : Nat := (i % 256) * 256 + (i % 65536) / 256

/-- Go `binary.BigEndian.PutUint16`: the two bytes written for value `v`
are `buf[0] = byte(v >> 8)` = `(v / 256) % 256` and
`buf[1] = byte(v)` = `v % 256`. -/
def putU16 (v : Nat) : List Nat := [(v / 256) % 256, v % 256]

/-- Go `binary.BigEndian.Uint16(b[i:i+2])` =
`uint16(b[i])<<8 | uint16(b[i+1])`: the arguments are bytes
(`% 256` records the byte typing), so the shift-or is
`b[i] * 256 + b[i+1]`. -/
def getU16 (b : List Nat) (i : Nat) : Nat :=
  (b.getD i 0) % 256 * 256 + (b.getD (i + 1) 0) % 256

/-- Go `type EthHdr struct { Dst [6]byte; Src [6]byte; Type uint16 }`. -/
structure EthHdr where
  dst : List Nat
  src : List Nat
  ty : Nat
  deriving Repr, DecidableEq

/-- Go `type RarpPacket struct` (hrd, pro, hln, pln, op, sha, spa, tha, tpa). -/
structure RarpPacket where
  hType : Nat
  pType : Nat
  hlen : Nat
  plen : Nat
  oper : Nat
  sha : List Nat
  spa : List Nat
  tha : List Nat
  tpa : List Nat
  deriving Repr, DecidableEq

/-- Go `func buildRarpReply(serverMAC, serverIP, targetMAC, targetIP)`:
fills an `EthHdr` and `RarpPacket` and serializes them into a 42-byte
frame.  `copy(eth.Dst[:], targetMAC[:6])` etc. become `take 6`/`take 4`
(for the valid 6-byte MAC / 4-byte IP inputs these are exact copies).
Each 16-bit field is first byte-swapped with `htons` and then written
with `binary.BigEndian.PutUint16`, exactly as in the source. -/
def buildRarpReply (serverMAC serverIP targetMAC targetIP : List Nat) : List Nat :=
  targetMAC.take 6 ++ serverMAC.take 6 ++ putU16 (htons ETH_P_RARP) ++
  putU16 (htons 1) ++ putU16 (htons ETH_P_IP) ++ [6, 4] ++
  putU16 (htons RARP_REPLY) ++
  serverMAC.take 6 ++ serverIP.take 4 ++ targetMAC.take 6 ++ targetIP.take 4

/-- The two error cases of Go `parseIncomingRarp`:
`fmt.Errorf("frame too short: %d", len(b))` and
`fmt.Errorf("not RARP ethertype: 0x%04x", eth.Type)`. -/
inductive DecodeErr where
  | frameTooShort (n : Nat)
  | wrongEthertype (t : Nat)
  deriving Repr, DecidableEq

/-- Go `func parseIncomingRarp(b []byte) (EthHdr, RarpPacket, error)`:
rejects frames shorter than 42 bytes, rejects frames whose big-endian
16-bit field at offset 12 differs from `htons(ETH_P_RARP)`, and
otherwise copies the fields out at fixed offsets. -/
def parseIncomingRarp (b : List Nat) : Except DecodeErr (EthHdr × RarpPacket) :=
  if b.length < 14 + 28 then
    .error (.frameTooShort b.length)
  else
    let ty := getU16 b 12
    if ty ≠ htons ETH_P_RARP then
      .error (.wrongEthertype ty)
    else
      .ok ({ dst := (b.drop 0).take 6, src := (b.drop 6).take 6, ty := ty },
           { hType := getU16 b 14, pType := getU16 b 16,
             hlen := b.getD 18 0, plen := b.getD 19 0,
             oper := getU16 b 20,
             sha := (b.drop 22).take 6, spa := (b.drop 28).take 4,
             tha := (b.drop 32).take 6, tpa := (b.drop 38).take 4 })

/-- The static table `map[[6]byte][4]byte` of main.go, as an
association list with at most one entry per key. -/
abbrev MacTable := List (List Nat × List Nat)

/-- Go map assignment `m[mac6] = ip4`: any previous binding of the key
is replaced by the new one. -/
def mapAssign (m : MacTable) (k v : List Nat) : MacTable :=
  (m.filter (fun e => !(e.1 == k))) ++ [(k, v)]

/-- Go map lookup `ip4, ok := macToIP[targetMAC]`. -/
def mapLookup (m : MacTable) (k : List Nat) : Option (List Nat) :=
  match m with
  | [] => none
  | e :: rest => if e.1 = k then some e.2 else mapLookup rest k

/-- Number of entries of the table carrying key `k`. -/
def keyCount (m : MacTable) (k : List Nat) : Nat :=
  (m.filter (fun e => e.1 == k)).length

/-- One iteration of the dispatcher loop of `main` (main.go lines
213-258), as a function from the received frame to the list of frames
transmitted for it: decode errors, non-`htons(RARP_REQUEST)` opcodes
and unmapped target hardware addresses produce no transmission;
otherwise exactly one reply built by `buildRarpReply(ifc.HardwareAddr,
serverIP, pkt.THA, ip4)` is sent. -/
def handleFrame (table : MacTable) (serverMAC serverIP : List Nat)
    (frame : List Nat) : List (List Nat) :=
  match parseIncomingRarp frame with
  | .error _ => []
  | .ok (_, pkt) =>
    if pkt.oper ≠ htons RARP_REQUEST then []
    else
      match mapLookup table pkt.tha with
      | none => []
      | some ip4 => [buildRarpReply serverMAC serverIP pkt.tha ip4]

/-! ## Go standard library helpers used by `parseMapping`

`parseMapping` calls `strings.Split`, `strings.TrimSpace`,
`strings.SplitN`, `net.ParseMAC` and `net.ParseIP(..).To4()`.  The
following definitions embed those library functions (from the Go
standard library sources, net/parse.go, net/mac.go, net/ip.go,
strings/strings.go) for char-list strings. -/

/-- Go `unicode.IsSpace`, the predicate used by `strings.TrimSpace`
(the Unicode White_Space code points). -/
def goIsSpace (c : Char) : Bool :=
  [9, 10, 11, 12, 13, 32, 0x85, 0xA0, 0x1680, 0x2000, 0x2001, 0x2002, 0x2003,
   0x2004, 0x2005, 0x2006, 0x2007, 0x2008, 0x2009, 0x200A, 0x2028, 0x2029,
   0x202F, 0x205F, 0x3000].contains c.toNat

/-- Go `strings.TrimSpace`: drop leading and trailing white space. -/
def trimSpace (s : List Char) : List Char :=
  ((s.dropWhile goIsSpace).reverse.dropWhile goIsSpace).reverse

/-- Go `strings.Split(s, sep)` for a one-char separator: split around
every occurrence of `sep` (empty input gives one empty field). -/
def splitOnChar (sep : Char) : List Char → List (List Char)
  | [] => [[]]
  | c :: rest =>
    if c = sep then [] :: splitOnChar sep rest
    else
      match splitOnChar sep rest with
      | [] => [[c]]
      | a :: as => (c :: a) :: as

/-- Go `strings.SplitN(s, sep, 2)` for a one-char separator: split at the
first occurrence only, so the result has one or two fields. -/
def splitN2 (sep : Char) (s : List Char) : List (List Char) :=
  if sep ∈ s then
    [s.takeWhile (fun c => c != sep), (s.dropWhile (fun c => c != sep)).drop 1]
  else [s]

/-- Value of a hexadecimal digit character, used by net `xtoi`. -/
def hexDigitVal (c : Char) : Option Nat :=
  if '0' ≤ c ∧ c ≤ '9' then some (c.toNat - '0'.toNat)
  else if 'a' ≤ c ∧ c ≤ 'f' then some (c.toNat - 'a'.toNat + 10)
  else if 'A' ≤ c ∧ c ≤ 'F' then some (c.toNat - 'A'.toNat + 10)
  else none

/-- Worker for net `xtoi` (index `i`, accumulator `n`). -/
def xtoiAux : List Char → Nat → Nat → Nat × Nat × Bool
  | [], i, n => if i = 0 then (0, i, false) else (n, i, true)
  | c :: rest, i, n =>
    match hexDigitVal c with
    | some d =>
      let m := n * 16 + d
      if m ≥ 0xFFFFFF then (0, i, false)
      else xtoiAux rest (i + 1) m
    | none => if i = 0 then (0, i, false) else (n, i, true)

/-- net `xtoi(s)`: parse a hexadecimal number at the start of `s`;
returns (value, characters consumed, success). -/
def xtoi (s : List Char) : Nat × Nat × Bool := xtoiAux s 0 0

/-- Worker for net `dtoi` (index `i`, accumulator `n`). -/
def dtoiAux : List Char → Nat → Nat → Nat × Nat × Bool
  | [], i, n => if i = 0 then (0, 0, false) else (n, i, true)
  | c :: rest, i, n =>
    if '0' ≤ c ∧ c ≤ '9' then
      let m := n * 10 + (c.toNat - '0'.toNat)
      if m ≥ 0xFFFFFF then (0xFFFFFF, i, false)
      else dtoiAux rest (i + 1) m
    else if i = 0 then (0, 0, false) else (n, i, true)

/-- net `dtoi(s)`: parse a decimal number at the start of `s`;
returns (value, characters consumed, success). -/
def dtoi (s : List Char) : Nat × Nat × Bool := dtoiAux s 0 0

/-- net `xtoi2(s, e)`: two hex digits, and the third byte of `s`
(when present) must equal `e`. -/
def xtoi2 (s : List Char) (e : Char) : Option Nat :=
  if s.length > 2 ∧ s.getD 2 ' ' ≠ e then none
  else
    let r := xtoi (s.take 2)
    if r.2.2 ∧ r.2.1 = 2 then some r.1 else none

/-- The group loop of `net.ParseMAC` for the `xx:xx:...` / `xx-xx-...`
formats: `hw[i], ok = xtoi2(s[x:], sep)` with `x` advancing by 3;
`count` is the number of bytes still to read. -/
def macColonLoop (sep : Char) : List Char → Nat → Option (List Nat)
  | _, 0 => some []
  | s, count + 1 =>
    match xtoi2 s sep with
    | none => none
    | some b =>
      match macColonLoop sep (s.drop 3) count with
      | none => none
      | some rest => some (b :: rest)

/-- The group loop of `net.ParseMAC` for the `xxxx.xxxx....` format:
two bytes per dot-separated group, `x` advancing by 5; `count` is the
number of groups still to read. -/
def macDotLoop : List Char → Nat → Option (List Nat)
  | _, 0 => some []
  | s, count + 1 =>
    match xtoi2 (s.take 2) ' ' , xtoi2 (s.drop 2) '.' with
    | some b1, some b2 =>
      match macDotLoop (s.drop 5) count with
      | none => none
      | some rest => some (b1 :: b2 :: rest)
    | _, _ => none

/-- Go `net.ParseMAC(s)`: accepts colon-, dash-, or dot-separated
hardware addresses of 6, 8 or 20 bytes. -/
def goParseMAC (s : List Char) : Option (List Nat) :=
  if s.length < 14 then none
  else if s.getD 2 ' ' = ':' ∨ s.getD 2 ' ' = '-' then
    if (s.length + 1) % 3 ≠ 0 then none
    else
      let n := (s.length + 1) / 3
      if ¬(n = 6 ∨ n = 8 ∨ n = 20) then none
      else macColonLoop (s.getD 2 ' ') s n
  else if s.getD 4 ' ' = '.' then
    if (s.length + 1) % 5 ≠ 0 then none
    else
      let n := 2 * ((s.length + 1) / 5)
      if ¬(n = 6 ∨ n = 8 ∨ n = 20) then none
      else macDotLoop s (n / 2)
  else none

/-- The 12-byte head `0,...,0,0xff,0xff` that net `IPv4()` puts in
front of the four address bytes (16-byte representation). -/
def v4InV6Head : List Nat := [0, 0, 0, 0, 0, 0, 0, 0, 0, 0, 0xff, 0xff]

/-- The octet loop of net `parseIPv4`: each iteration requires a
nonempty rest, a leading dot (except the first octet), and a decimal
octet ≤ 255 without leading zero; returns octets and leftover input. -/
def parseIPv4Octets : List Char → Bool → Nat → Option (List Nat × List Char)
  | s, _, 0 => some ([], s)
  | s, needDot, k + 1 =>
    if s = [] then none
    else if needDot ∧ s.getD 0 ' ' ≠ '.' then none
    else
      let s1 := if needDot then s.drop 1 else s
      let r := dtoi s1
      if ¬r.2.2 ∨ r.1 > 0xFF then none
      else if r.2.1 > 1 ∧ s1.getD 0 ' ' = '0' then none
      else
        match parseIPv4Octets (s1.drop r.2.1) true k with
        | none => none
        | some (p, rest) => some (r.1 :: p, rest)

/-- net `parseIPv4(s)`: a full dotted quad consuming all of `s`,
returned in the 16-byte `IPv4()` representation. -/
def parseIPv4 (s : List Char) : Option (List Nat) :=
  match parseIPv4Octets s false 4 with
  | none => none
  | some (p, rest) => if rest = [] then some (v4InV6Head ++ p) else none

/-- The main loop of net `parseIPv6`: `acc` holds the bytes written so
far (its length is the loop variable `i`), `el` the ellipsis position.
Returns the bytes, the ellipsis position and the remaining input.
The fuel only bounds the iteration count (each iteration consumes at
least two of the sixteen byte positions). -/
def v6Loop : Nat → List Char → List Nat → Option Nat → Option (List Nat × Option Nat × List Char)
  | 0, _, _, _ => none
  | fuel + 1, s, acc, el =>
    if acc.length ≥ 16 then some (acc, el, s)
    else
      let r := xtoi s
      if ¬r.2.2 ∨ r.1 > 0xFFFF then none
      else if r.2.1 < s.length ∧ s.getD r.2.1 ' ' = '.' then
        if el = none ∧ acc.length ≠ 12 then none
        else if acc.length + 4 > 16 then none
        else
          match parseIPv4 s with
          | none => none
          | some ip4 => some (acc ++ ip4.drop 12, el, [])
      else
        let acc2 := acc ++ [(r.1 >>> 8) % 256, r.1 % 256]
        let s2 := s.drop r.2.1
        if s2 = [] then some (acc2, el, [])
        else if s2.getD 0 ' ' ≠ ':' ∨ s2.length = 1 then none
        else
          let s3 := s2.drop 1
          if s3.getD 0 ' ' = ':' then
            if el.isSome then none
            else
              let s4 := s3.drop 1
              if s4 = [] then some (acc2, some acc2.length, [])
              else v6Loop fuel s4 acc2 (some acc2.length)
          else v6Loop fuel s3 acc2 el

/-- The code after the loop of net `parseIPv6`: the input must be
consumed; a short result needs an ellipsis and is expanded by
inserting zeros at the ellipsis position; a full result must not also
have an ellipsis. -/
def v6Finish : Option (List Nat × Option Nat × List Char) → Option (List Nat)
  | none => none
  | some (acc, el, s) =>
    if s ≠ [] then none
    else if acc.length < 16 then
      match el with
      | none => none
      | some e => some (acc.take e ++ List.replicate (16 - acc.length) 0 ++ acc.drop e)
    else if el.isSome then none
    else some acc

/-- net `parseIPv6(s)`: optional leading `::`, then the group loop. -/
def parseIPv6 (s : List Char) : Option (List Nat) :=
  if s.length ≥ 2 ∧ s.getD 0 ' ' = ':' ∧ s.getD 1 ' ' = ':' then
    let s2 := s.drop 2
    if s2 = [] then some (List.replicate 16 0)
    else v6Finish (v6Loop 17 s2 [] (some 0))
  else v6Finish (v6Loop 17 s [] none)

/-- Index of the last occurrence of `c` in `s`. -/
def lastIdxOf (c : Char) : List Char → Option Nat
  | [] => none
  | a :: rest =>
    match lastIdxOf c rest with
    | some i => some (i + 1)
    | none => if a = c then some 0 else none

/-- The host part of net `splitHostZone(s)`: everything before the
last `%` (when its index is positive); `ParseIP` drops the zone. -/
def splitHostZone (s : List Char) : List Char :=
  match lastIdxOf '%' s with
  | some i => if i > 0 then s.take i else s
  | none => s

/-- The dispatch loop of `net.ParseIP`: the first `.` or `:` decides
between the IPv4 and IPv6 parsers. -/
def ipDispatch : List Char → Option Bool
  | [] => none
  | c :: rest =>
    if c = '.' then some true
    else if c = ':' then some false
    else ipDispatch rest

/-- Go `net.ParseIP(s)` (16-byte representation, or `none`). -/
def goParseIP (s : List Char) : Option (List Nat) :=
  match ipDispatch s with
  | some true => parseIPv4 s
  | some false => parseIPv6 (splitHostZone s)
  | none => none

/-- Go `net.IP.To4()` applied to the result of `ParseIP`: a 16-byte
address yields its last four bytes when it is IPv4-mapped. -/
def goTo4 : Option (List Nat) → Option (List Nat)
  | none => none
  | some ip =>
    if ip.length = 4 then some ip
    else if ip.length = 16 ∧ (ip.take 10).all (fun x => x == 0) ∧
        ip.getD 10 0 = 0xff ∧ ip.getD 11 0 = 0xff then
      some (ip.drop 12)
    else none

/-! ## The mapping-table parser -/

/-- The three error cases of Go `parseMapping`:
`invalid mapping entry`, `parse MAC`, `parse IPv4`. -/
inductive MapErr where
  | invalidMappingEntry (p : List Char)
  | invalidMacAddress (s : List Char)
  | invalidIPv4Address (s : List Char)
  deriving Repr, DecidableEq

/-- The `for _, p := range pairs` loop of Go `parseMapping`: trim each
entry, skip blank ones, split at the first `=`, parse the MAC and the
IPv4 parts, and assign `m[mac6] = ip4` (the first six MAC bytes and
four IP bytes, per the `copy` calls). -/
def parseMappingLoop : List (List Char) → MacTable → Except MapErr MacTable
  | [], m => .ok m
  | p :: pairs, m =>
    let q := trimSpace p
    if q = [] then parseMappingLoop pairs m
    else
      let kv := splitN2 '=' q
      if kv.length ≠ 2 then .error (.invalidMappingEntry q)
      else
        let macStr := trimSpace (kv.getD 0 [])
        let ipStr := trimSpace (kv.getD 1 [])
        match goParseMAC macStr with
        | none => .error (.invalidMacAddress macStr)
        | some mac =>
          match goTo4 (goParseIP ipStr) with
          | none => .error (.invalidIPv4Address ipStr)
          | some ip => parseMappingLoop pairs (mapAssign m (mac.take 6) (ip.take 4))

/-- Go `func parseMapping(s string) (map[[6]byte][4]byte, error)`. -/
def parseMapping (s : List Char) : Except MapErr MacTable :=
  if s = [] then .ok []
  else parseMappingLoop (splitOnChar ',' s) []

/-- The key/value pair an entry string contributes to the table, when
valid (mirrors one iteration of `parseMappingLoop`). -/
def entryKV (p : List Char) : Option (List Nat × List Nat) :=
  let q := trimSpace p
  if q = [] then none
  else
    let kv := splitN2 '=' q
    if kv.length ≠ 2 then none
    else
      match goParseMAC (trimSpace (kv.getD 0 [])),
            goTo4 (goParseIP (trimSpace (kv.getD 1 []))) with
      | some mac, some ip => some (mac.take 6, ip.take 4)
      | _, _ => none

/-- The table obtained by assigning the key/value pair of every valid
entry in order, starting from `m0`. -/
def foldTable (pairs : List (List Char)) (m0 : MacTable) : MacTable :=
  pairs.foldl
    (fun m p => match entryKV p with | some kv => mapAssign m kv.1 kv.2 | none => m) m0

/-- Accumulator form of `lastIPFor`. -/
def lastAccum (pairs : List (List Char)) (k : List Nat) (a : Option (List Nat)) :
    Option (List Nat) :=
  pairs.foldl
    (fun acc p =>
      match entryKV p with
      | some kv => if kv.1 = k then some kv.2 else acc
      | none => acc) a

/-- The IPv4 value of the last valid entry for key `k`, in input
order (the specification notion of last-write-wins). -/
def lastIPFor (pairs : List (List Char)) (k : List Nat) : Option (List Nat) :=
  lastAccum pairs k none

/-! ## Concrete inputs used by witnesses and counterexamples -/

/-- Example server hardware address (6 bytes). -/
def exSrvMac : List Nat := [0x02, 0x54, 0x00, 0x12, 0x34, 0x56]

/-- Example server IPv4 address. -/
def exSrvIp : List Nat := [192, 168, 1, 1]

/-- Example requester hardware address aa:bb:cc:dd:ee:ff. -/
def exReqMac : List Nat := [0xaa, 0xbb, 0xcc, 0xdd, 0xee, 0xff]

/-- Example mapped IPv4 address 192.168.1.10. -/
def exMappedIp : List Nat := [192, 168, 1, 10]

/-- Example mapping table sending aa:bb:cc:dd:ee:ff to 192.168.1.10. -/
def exTable : MacTable := [(exReqMac, exMappedIp)]

/-- The frame `buildRarpReply` produces for the example identity and
requester. -/
def exReply : List Nat := buildRarpReply exSrvMac exSrvIp exReqMac exMappedIp

/-- A 42-byte request frame for requester `exReqMac`, whose ethertype
bytes are the `35 80` the decoder accepts, with the given opcode
bytes at offsets 20 and 21. -/
def mkReqFrame (opHi opLo : Nat) : List Nat :=
  [0xff, 0xff, 0xff, 0xff, 0xff, 0xff] ++ exReqMac ++ [0x35, 0x80] ++
  [0x00, 0x01] ++ [0x08, 0x00] ++ [6, 4] ++ [opHi, opLo] ++
  exReqMac ++ [0, 0, 0, 0] ++ exReqMac ++ [0, 0, 0, 0]

/-- Request frame whose decoded opcode field is 3 (the network-byte-
order encoding of RARP REQUEST, wire bytes `00 03`). -/
def frameOp3 : List Nat := mkReqFrame 0 3

/-- Request frame whose decoded opcode field is 0x0300 = 768 (wire
bytes `03 00`, the byte-swapped encoding the code tests for). -/
def frameOp768 : List Nat := mkReqFrame 3 0

/-- A 42-byte frame whose ethertype field (big-endian at offset 12)
is the genuine RARP ethertype 0x8035 (wire bytes `80 35`). -/
def rarpWireFrame : List Nat :=
  List.replicate 12 0 ++ [0x80, 0x35] ++ List.replicate 28 0

/-- A 42-byte frame whose ethertype field is 0x3580 (wire bytes
`35 80`). -/
def swappedWireFrame : List Nat :=
  List.replicate 12 0 ++ [0x35, 0x80] ++ List.replicate 28 0

/-- A 42-byte frame with accepted ethertype bytes and arbitrary junk
in every RARP field. -/
def weirdFrame : List Nat :=
  List.replicate 12 9 ++ [0x35, 0x80] ++
  [0xde, 0xad, 0xbe, 0xef, 99, 77, 0x99, 0x99] ++ List.replicate 20 1

/-! ## Helper lemmas -/

/-- A list of length six is an explicit six-element list. -/
theorem len6_cases (l : List Nat) (h : l.length = 6) :
    ∃ a b c d e f, l = [a, b, c, d, e, f] := by
  match l, h with
  | [a, b, c, d, e, f], _ => exact ⟨a, b, c, d, e, f, rfl⟩
  | [], h => simp at h
  | [_], h => simp at h
  | [_, _], h => simp at h
  | [_, _, _], h => simp at h
  | [_, _, _, _], h => simp at h
  | [_, _, _, _, _], h => simp at h
  | _ :: _ :: _ :: _ :: _ :: _ :: _ :: _, h =>
    simp only [List.length_cons] at h; omega

/-- A list of length four is an explicit four-element list. -/
theorem len4_cases (l : List Nat) (h : l.length = 4) :
    ∃ a b c d, l = [a, b, c, d] := by
  match l, h with
  | [a, b, c, d], _ => exact ⟨a, b, c, d, rfl⟩
  | [], h => simp at h
  | [_], h => simp at h
  | [_, _], h => simp at h
  | [_, _, _], h => simp at h
  | _ :: _ :: _ :: _ :: _ :: _, h =>
    simp only [List.length_cons] at h; omega

/-! ## Claims about the frame codec and the dispatcher -/

/-- Claim C1, counterexample: decoding the frame `buildRarpReply`
produces does succeed, but the decoded opcode field is 1024 = 0x0400
(the byte-swapped encoding of REPLY), not RARP_REPLY = 4, so the
claim as stated fails at this input. -/
theorem c1_cex :
    (parseIncomingRarp exReply).toOption.map (fun r => r.2.oper) = some 1024 ∧
    (1024 : Nat) ≠ RARP_REPLY := ⟨rfl, by decide⟩

/-- Claim C1, amended: for every valid quadruple (6-byte MACs, 4-byte
IPs), decoding the encoded frame succeeds, recovers serverMAC,
serverIP, targetMAC, targetIP in the sender/target fields, and the
decoded opcode field is `htons RARP_REPLY` = 0x0400 (the byte-swapped
encoding of REPLY), not 4. -/
theorem c1_roundtrip (sm si tm ti : List Nat)
    (h1 : sm.length = 6) (h2 : si.length = 4)
    (h3 : tm.length = 6) (h4 : ti.length = 4) :
    parseIncomingRarp (buildRarpReply sm si tm ti) =
      .ok ({ dst := tm, src := sm, ty := htons ETH_P_RARP },
           { hType := htons 1, pType := htons ETH_P_IP, hlen := 6, plen := 4,
             oper := htons RARP_REPLY,
             sha := sm, spa := si, tha := tm, tpa := ti }) := by
  obtain ⟨a0, a1, a2, a3, a4, a5, rfl⟩ := len6_cases sm h1
  obtain ⟨b0, b1, b2, b3, rfl⟩ := len4_cases si h2
  obtain ⟨c0, c1, c2, c3, c4, c5, rfl⟩ := len6_cases tm h3
  obtain ⟨d0, d1, d2, d3, rfl⟩ := len4_cases ti h4
  simp [buildRarpReply, parseIncomingRarp, putU16, getU16, htons,
        ETH_P_RARP, ETH_P_IP, RARP_REPLY, List.getD]

/-- Claim C1, witness for the amended round-trip theorem at the
example quadruple. -/
theorem c1_roundtrip_witness :
    parseIncomingRarp (buildRarpReply exSrvMac exSrvIp exReqMac exMappedIp) =
      .ok ({ dst := exReqMac, src := exSrvMac, ty := htons ETH_P_RARP },
           { hType := htons 1, pType := htons ETH_P_IP, hlen := 6, plen := 4,
             oper := htons RARP_REPLY,
             sha := exSrvMac, spa := exSrvIp, tha := exReqMac, tpa := exMappedIp }) :=
  c1_roundtrip exSrvMac exSrvIp exReqMac exMappedIp rfl rfl rfl rfl

/-- Claim C2: the encoded frame has 42 bytes and the claimed MAC/IP
and length fields, but each 16-bit field is byte-swapped on the wire:
the big-endian field at offset 12 reads 0x3580 (not the RARP
ethertype 0x8035), hardware type reads 0x0100 (not 1), protocol type
reads 0x0008 (not 0x0800), and the opcode reads 0x0400 (not REPLY=4),
because `buildRarpReply` applies `htons` before
`binary.BigEndian.PutUint16`. -/
theorem c2_wire_swapped :
    exReply.length = 42 ∧
    getU16 exReply 12 = 0x3580 ∧
    getU16 exReply 14 = 0x0100 ∧
    getU16 exReply 16 = 0x0008 ∧
    exReply.getD 18 0 = 6 ∧
    exReply.getD 19 0 = 4 ∧
    getU16 exReply 20 = 0x0400 ∧
    exReply.take 6 = exReqMac ∧
    (exReply.drop 6).take 6 = exSrvMac ∧
    (exReply.drop 22).take 6 = exSrvMac ∧
    (exReply.drop 28).take 4 = exSrvIp ∧
    (exReply.drop 32).take 6 = exReqMac ∧
    (exReply.drop 38).take 4 = exMappedIp := by decide

/-- Claim C3: a 42-byte frame whose ethertype field (big-endian at
offset 12) is the RARP ethertype 0x8035 is rejected with
WrongEthertype, while a frame whose field reads 0x3580 (wire bytes
`35 80`) is accepted: the decoder compares the already big-endian
value against `htons(ETH_P_RARP)`. -/
theorem c3_ethertype_swapped :
    getU16 rarpWireFrame 12 = ETH_P_RARP ∧
    parseIncomingRarp rarpWireFrame = .error (.wrongEthertype 0x8035) ∧
    getU16 swappedWireFrame 12 ≠ ETH_P_RARP ∧
    (parseIncomingRarp swappedWireFrame).isOk = true := ⟨rfl, rfl, by decide, rfl⟩

/-- Claim C4: the dispatcher replies to a decoded frame whose opcode
field is 768 = 0x0300 (not RARP REQUEST = 3), and discards a decoded
frame whose opcode field is 3, because `main` compares the decoded
opcode against `htons(RARP_REQUEST)`. -/
theorem c4_opcode_swapped :
    (parseIncomingRarp frameOp768).toOption.map (fun r => r.2.oper) = some 768 ∧
    (768 : Nat) ≠ RARP_REQUEST ∧
    handleFrame exTable exSrvMac exSrvIp frameOp768 = [exReply] ∧
    (parseIncomingRarp frameOp3).toOption.map (fun r => r.2.oper) = some RARP_REQUEST ∧
    handleFrame exTable exSrvMac exSrvIp frameOp3 = [] :=
  ⟨rfl, by decide, rfl, rfl, rfl⟩

/-- Claim C5: for every decoded frame that the dispatcher recognizes
as a RARP request (opcode field `htons RARP_REQUEST`) whose target
hardware address is a key of the table, exactly one frame is
transmitted, namely the reply built from the server identity as
sender and (requester MAC, resolved IP) as target. -/
theorem c5_mapped_reply (table : MacTable) (sm si frame tha ip4 : List Nat)
    (hreq : (parseIncomingRarp frame).toOption.map (fun r => r.2.oper) =
      some (htons RARP_REQUEST))
    (htha : (parseIncomingRarp frame).toOption.map (fun r => r.2.tha) = some tha)
    (hhit : mapLookup table tha = some ip4) :
    handleFrame table sm si frame = [buildRarpReply sm si tha ip4] := by
  cases hp : parseIncomingRarp frame with
  | error e => rw [hp] at hreq; simp [Except.toOption] at hreq
  | ok r =>
    rw [hp] at hreq htha
    simp [Except.toOption] at hreq htha
    simp [handleFrame, hp, hreq, htha, hhit]

/-- Claim C5, witness: the example table and the request frame with
opcode field 0x0300 produce exactly the one expected reply. -/
theorem c5_mapped_reply_witness :
    handleFrame exTable exSrvMac exSrvIp frameOp768 =
      [buildRarpReply exSrvMac exSrvIp exReqMac exMappedIp] :=
  c5_mapped_reply exTable exSrvMac exSrvIp frameOp768 exReqMac exMappedIp rfl rfl rfl

/-- Claim C6: for every decoded request whose target hardware address
is not a key of the table, the dispatcher transmits nothing. -/
theorem c6_unmapped_silent (table : MacTable) (sm si frame tha : List Nat)
    (hreq : (parseIncomingRarp frame).toOption.map (fun r => r.2.oper) =
      some (htons RARP_REQUEST))
    (htha : (parseIncomingRarp frame).toOption.map (fun r => r.2.tha) = some tha)
    (hmiss : mapLookup table tha = none) :
    handleFrame table sm si frame = [] := by
  cases hp : parseIncomingRarp frame with
  | error e => rw [hp] at hreq; simp [Except.toOption] at hreq
  | ok r =>
    rw [hp] at hreq htha
    simp [Except.toOption] at hreq htha
    simp [handleFrame, hp, hreq, htha, hmiss]

/-- Claim C6, witness: with an empty table the request frame gets no
reply. -/
theorem c6_unmapped_silent_witness :
    handleFrame [] exSrvMac exSrvIp frameOp768 = [] :=
  c6_unmapped_silent [] exSrvMac exSrvIp frameOp768 exReqMac rfl rfl rfl

/-- Claim C10: decode validates only the length (at least 42 bytes)
and the ethertype field; every frame passing those two checks decodes
successfully into the raw fields at their fixed offsets, whatever the
hardware type, protocol type, length bytes and opcode contain. -/
theorem c10_decode_unvalidated (b : List Nat) (h1 : 42 ≤ b.length)
    (h2 : getU16 b 12 = htons ETH_P_RARP) :
    parseIncomingRarp b =
      .ok ({ dst := (b.drop 0).take 6, src := (b.drop 6).take 6, ty := getU16 b 12 },
           { hType := getU16 b 14, pType := getU16 b 16,
             hlen := b.getD 18 0, plen := b.getD 19 0, oper := getU16 b 20,
             sha := (b.drop 22).take 6, spa := (b.drop 28).take 4,
             tha := (b.drop 32).take 6, tpa := (b.drop 38).take 4 }) := by
  have h3 : ¬ b.length < 14 + 28 := by omega
  simp [parseIncomingRarp, h3, h2]

/-- Claim C10, witness: a 42-byte frame with junk in every RARP field
still decodes, returning those fields unvalidated. -/
theorem c10_decode_unvalidated_witness :
    parseIncomingRarp weirdFrame =
      .ok ({ dst := [9, 9, 9, 9, 9, 9], src := [9, 9, 9, 9, 9, 9], ty := 0x3580 },
           { hType := 0xdead, pType := 0xbeef, hlen := 99, plen := 77,
             oper := 0x9999,
             sha := [1, 1, 1, 1, 1, 1], spa := [1, 1, 1, 1],
             tha := [1, 1, 1, 1, 1, 1], tpa := [1, 1, 1, 1] }) :=
  (c10_decode_unvalidated weirdFrame (by decide) (by decide)).trans rfl

/-! ## Lemmas about the string helpers -/

/-- The function `dropWhile` leaves a list of non-space characters unchanged. -/
theorem dropWhile_no_space (s : List Char) (h : ∀ c ∈ s, goIsSpace c = false) :
    s.dropWhile goIsSpace = s := by
  cases s with
  | nil => rfl
  | cons a t => simp [List.dropWhile, h a (by simp)]

/-- The function `trimSpace` leaves a string of non-space characters unchanged. -/
theorem trimSpace_eq_self (s : List Char) (h : ∀ c ∈ s, goIsSpace c = false) :
    trimSpace s = s := by
  unfold trimSpace
  rw [dropWhile_no_space s h]
  rw [dropWhile_no_space s.reverse (by intro c hc; exact h c (List.mem_reverse.mp hc))]
  exact List.reverse_reverse s

/-- Splitting a string without the separator gives one field. -/
theorem splitOnChar_no_sep (sep : Char) (s : List Char) (h : sep ∉ s) :
    splitOnChar sep s = [s] := by
  induction s with
  | nil => rfl
  | cons c rest ih =>
    have hc : ¬(c = sep) := fun e => h (e ▸ List.mem_cons_self c rest)
    have hr : sep ∉ rest := fun e => h (List.mem_cons_of_mem c e)
    simp [splitOnChar, hc, ih hr]

/-- Splitting at the first separator occurrence peels off the first
field. -/
theorem splitOnChar_append (sep : Char) (A B : List Char) (h : sep ∉ A) :
    splitOnChar sep (A ++ sep :: B) = A :: splitOnChar sep B := by
  induction A with
  | nil => simp [splitOnChar]
  | cons a A ih =>
    have ha : ¬(a = sep) := fun e => h (e ▸ List.mem_cons_self a A)
    have hA : sep ∉ A := fun e => h (List.mem_cons_of_mem a e)
    simp [splitOnChar, ha, ih hA]

/-- Taking `takeWhile (· != sep)` of `A ++ sep :: B` is `A` when `sep ∉ A`. -/
theorem takeWhile_append_sep (sep : Char) (A B : List Char) (h : sep ∉ A) :
    (A ++ sep :: B).takeWhile (fun c => c != sep) = A := by
  induction A with
  | nil => simp [List.takeWhile]
  | cons a A ih =>
    have ha : ¬(a = sep) := fun e => h (e ▸ List.mem_cons_self a A)
    have hA : sep ∉ A := fun e => h (List.mem_cons_of_mem a e)
    have hb : (a != sep) = true := by simp [ha]
    simp [List.takeWhile, hb, ih hA]

/-- Taking `dropWhile (· != sep)` of `A ++ sep :: B` is `sep :: B` when
`sep ∉ A`. -/
theorem dropWhile_append_sep (sep : Char) (A B : List Char) (h : sep ∉ A) :
    (A ++ sep :: B).dropWhile (fun c => c != sep) = sep :: B := by
  induction A with
  | nil => simp [List.dropWhile]
  | cons a A ih =>
    have ha : ¬(a = sep) := fun e => h (e ▸ List.mem_cons_self a A)
    have hA : sep ∉ A := fun e => h (List.mem_cons_of_mem a e)
    have hb : (a != sep) = true := by simp [ha]
    simp [List.dropWhile, hb, ih hA]

/-- A string without the separator is one `SplitN` field. -/
theorem splitN2_no_sep (sep : Char) (s : List Char) (h : sep ∉ s) :
    splitN2 sep s = [s] := by
  simp [splitN2, h]

/-- Go `SplitN` at the first separator occurrence. -/
theorem splitN2_append (sep : Char) (A B : List Char) (h : sep ∉ A) :
    splitN2 sep (A ++ sep :: B) = [A, B] := by
  have hmem : sep ∈ A ++ sep :: B := List.mem_append_right A (List.mem_cons_self sep B)
  simp only [splitN2, if_pos hmem, takeWhile_append_sep sep A B h,
    dropWhile_append_sep sep A B h, List.drop_succ_cons, List.drop_zero]

/-- A two-element list is an explicit pair of fields. -/
theorem len2_cases (α : Type) (l : List α) (h : l.length = 2) :
    ∃ a b, l = [a, b] := by
  match l, h with
  | [a, b], _ => exact ⟨a, b, rfl⟩
  | [], h => simp at h
  | [_], h => simp at h
  | _ :: _ :: _ :: _, h => simp only [List.length_cons] at h; omega

/-- A non-empty comma-free input is parsed as the single entry list. -/
theorem parseMapping_single (p : List Char) (hc : ',' ∉ p) (hp : p ≠ []) :
    parseMapping p = parseMappingLoop [p] [] := by
  simp [parseMapping, hp, splitOnChar_no_sep ',' p hc]

/-- One loop step on a well-shaped entry `macS=ipS` (no white space,
no `=` in the MAC part): the entry is split at its first `=` and
handled by the MAC and IP parsers. -/
theorem parseMappingLoop_cons (macS ipS : List Char) (rest : List (List Char)) (m : MacTable)
    (hm : ∀ c ∈ macS, goIsSpace c = false ∧ c ≠ '=')
    (hi : ∀ c ∈ ipS, goIsSpace c = false) :
    parseMappingLoop ((macS ++ '=' :: ipS) :: rest) m =
      match goParseMAC macS with
      | none => .error (.invalidMacAddress macS)
      | some mac =>
        match goTo4 (goParseIP ipS) with
        | none => .error (.invalidIPv4Address ipS)
        | some ip => parseMappingLoop rest (mapAssign m (mac.take 6) (ip.take 4)) := by
  have hall : ∀ c ∈ macS ++ '=' :: ipS, goIsSpace c = false := by
    intro c hc
    rcases List.mem_append.mp hc with h1 | h1
    · exact (hm c h1).1
    · rcases List.mem_cons.mp h1 with h2 | h2
      · subst h2; rfl
      · exact hi c h2
  have ht : trimSpace (macS ++ '=' :: ipS) = macS ++ '=' :: ipS :=
    trimSpace_eq_self _ hall
  have hne : macS ++ '=' :: ipS ≠ [] := by simp
  have hsp : splitN2 '=' (macS ++ '=' :: ipS) = [macS, ipS] :=
    splitN2_append '=' macS ipS (fun e => ((hm _ e).2) rfl)
  have htm : trimSpace macS = macS := trimSpace_eq_self _ (fun c hc => (hm c hc).1)
  have hti : trimSpace ipS = ipS := trimSpace_eq_self _ hi
  simp [parseMappingLoop, ht, hne, hsp, htm, hti]

/-! ## Claims about the mapping-table parser -/

/-- Claim C7, counterexample: the entry `a=b=c` splits into three
parts on `=`, yet `parseMapping` does not fail with
InvalidMappingEntry: it splits at the first `=` only and fails MAC
validation instead. -/
theorem c7_cex :
    (splitOnChar '=' ("a=b=c".toList)).length = 3 ∧
    parseMapping ("a=b=c".toList) = .error (.invalidMacAddress ['a']) := ⟨rfl, rfl⟩

/-- Claim C7, amended: a non-blank, comma-free entry fails with
InvalidMappingEntry exactly when it contains no `=` at all; an entry
with more than one `=` is split at the first `=` and fails (if at
all) with InvalidMacAddress or InvalidIPv4Address instead. -/
theorem c7_entry_errors (p : List Char) (hc : ',' ∉ p) (hne : trimSpace p ≠ []) :
    parseMapping p = .error (.invalidMappingEntry (trimSpace p)) ↔ '=' ∉ trimSpace p := by
  have hp : p ≠ [] := by intro h; subst h; exact hne rfl
  rw [parseMapping_single p hc hp]
  by_cases he : '=' ∈ trimSpace p
  · refine iff_of_false ?_ (by simpa using he)
    have hsp : (splitN2 '=' (trimSpace p)).length = 2 := by simp [splitN2, he]
    simp only [parseMappingLoop, if_neg hne]
    rw [if_neg (by simp [hsp])]
    cases hg : goParseMAC (trimSpace ((splitN2 '=' (trimSpace p)).getD 0 [])) with
    | none => simp
    | some mac =>
      cases hip : goTo4 (goParseIP (trimSpace ((splitN2 '=' (trimSpace p)).getD 1 []))) with
      | none => simp
      | some ip => simp [parseMappingLoop]
  · refine iff_of_true ?_ he
    have hsp : splitN2 '=' (trimSpace p) = [trimSpace p] := splitN2_no_sep '=' _ he
    simp [parseMappingLoop, hne, hsp]

/-- Claim C7, witness: `parse("garbage")` fails with
InvalidMappingEntry. -/
theorem c7_entry_errors_witness :
    parseMapping ("garbage".toList) =
      .error (.invalidMappingEntry (trimSpace ("garbage".toList))) :=
  (c7_entry_errors ("garbage".toList) (by decide) (by decide)).mpr (by decide)

/-- Claim C8, counterexample: `net.ParseMAC` also accepts the 8-byte
address aa:bb:cc:dd:ee:ff:00:11, so the entry is not rejected with
InvalidMacAddress; the `copy(mac6[:], mac[:6])` truncates it and the
table maps its first six bytes. -/
theorem c8_cex :
    goParseMAC ("aa:bb:cc:dd:ee:ff:00:11".toList) =
      some [0xaa, 0xbb, 0xcc, 0xdd, 0xee, 0xff, 0x00, 0x11] ∧
    parseMapping ("aa:bb:cc:dd:ee:ff:00:11=10.0.0.5".toList) =
      .ok [([0xaa, 0xbb, 0xcc, 0xdd, 0xee, 0xff], [10, 0, 0, 5])] := ⟨by decide, rfl⟩

/-- Claim C8, amended: for every entry `macS=ipS` (well-shaped: no
white space or comma in either part, no further `=` in the MAC part),
parse fails with InvalidMacAddress unless `net.ParseMAC` accepts the
MAC part (6, 8 or 20 bytes; longer addresses are accepted and
truncated to their first six bytes), fails with InvalidIPv4Address
unless `net.ParseIP(..).To4()` accepts the IP part, and when both
parts are valid the table maps exactly the first six MAC bytes to the
four address bytes. -/
theorem c8_entry_parse (macS ipS : List Char)
    (hm : ∀ c ∈ macS, goIsSpace c = false ∧ c ≠ ',' ∧ c ≠ '=')
    (hi : ∀ c ∈ ipS, goIsSpace c = false ∧ c ≠ ',') :
    parseMapping (macS ++ '=' :: ipS) =
      match goParseMAC macS with
      | none => .error (.invalidMacAddress macS)
      | some mac =>
        match goTo4 (goParseIP ipS) with
        | none => .error (.invalidIPv4Address ipS)
        | some ip => .ok [(mac.take 6, ip.take 4)] := by
  have hp : macS ++ '=' :: ipS ≠ [] := by simp
  have hc2 : ',' ∉ macS ++ '=' :: ipS := by
    intro h
    rcases List.mem_append.mp h with h1 | h1
    · exact ((hm _ h1).2.1) rfl
    · rcases List.mem_cons.mp h1 with h2 | h2
      · exact absurd h2 (by decide)
      · exact ((hi _ h2).2) rfl
  rw [parseMapping_single _ hc2 hp,
      parseMappingLoop_cons macS ipS [] []
        (fun c h => ⟨(hm c h).1, (hm c h).2.2⟩) (fun c h => (hi c h).1)]
  cases hg : goParseMAC macS with
  | none => rfl
  | some mac =>
    cases hip : goTo4 (goParseIP ipS) with
    | none => rfl
    | some ip => rfl

/-- Claim C8, witness: the specification example entry yields the
one-entry table. -/
theorem c8_entry_parse_witness :
    parseMapping ("aa:bb:cc:dd:ee:ff=10.0.0.5".toList) =
      .ok [([170, 187, 204, 221, 238, 255], [10, 0, 0, 5])] := by
  have h := c8_entry_parse ("aa:bb:cc:dd:ee:ff".toList) ("10.0.0.5".toList)
    (by decide) (by decide)
  exact h.trans (by rfl)

/-! ## Lemmas about the table model -/

/-- Assigning on an entry with the same key drops that entry. -/
theorem mapAssign_cons_eq (e : List Nat × List Nat) (rest : MacTable) (k v : List Nat)
    (h : e.1 = k) : mapAssign (e :: rest) k v = mapAssign rest k v := by
  simp [mapAssign, List.filter_cons, h]

/-- Assigning on an entry with another key keeps that entry. -/
theorem mapAssign_cons_ne (e : List Nat × List Nat) (rest : MacTable) (k v : List Nat)
    (h : ¬ e.1 = k) : mapAssign (e :: rest) k v = e :: mapAssign rest k v := by
  have hb : (e.1 == k) = false := by simp [h]
  simp [mapAssign, List.filter_cons, hb]

/-- Lookup after a map assignment: the assigned key sees the new
value, all other keys are unchanged. -/
theorem mapLookup_mapAssign (m : MacTable) (k v k2 : List Nat) :
    mapLookup (mapAssign m k v) k2 = if k2 = k then some v else mapLookup m k2 := by
  induction m with
  | nil =>
    by_cases h : k2 = k
    · subst h; simp [mapAssign, mapLookup]
    · simp [mapAssign, mapLookup, h, show ¬ k = k2 from fun e => h e.symm]
  | cons e rest ih =>
    by_cases hek : e.1 = k
    · rw [mapAssign_cons_eq e rest k v hek, ih]
      by_cases h2 : k2 = k
      · simp [h2]
      · have hek2 : ¬ e.1 = k2 := by rw [hek]; exact fun e2 => h2 e2.symm
        simp [mapLookup, hek2, h2]
    · rw [mapAssign_cons_ne e rest k v hek]
      by_cases hek2 : e.1 = k2
      · have h2 : ¬ k2 = k := fun e2 => hek (hek2.trans e2)
        simp [mapLookup, hek2, h2]
      · simp [mapLookup, hek2, ih]

/-- The count `keyCount` on a cons counts the head entry when its key matches. -/
theorem keyCount_cons (e : List Nat × List Nat) (rest : MacTable) (k2 : List Nat) :
    keyCount (e :: rest) k2 = (if e.1 = k2 then 1 else 0) + keyCount rest k2 := by
  by_cases h : e.1 = k2
  · have hb : (e.1 == k2) = true := by simp [h]
    simp [keyCount, List.filter_cons, hb, h, Nat.add_comm]
  · have hb : (e.1 == k2) = false := by simp [h]
    simp [keyCount, List.filter_cons, hb, h]

/-- Entry count after a map assignment: the assigned key has exactly
one entry, all other keys are unchanged. -/
theorem keyCount_mapAssign (m : MacTable) (k v k2 : List Nat) :
    keyCount (mapAssign m k v) k2 = if k2 = k then 1 else keyCount m k2 := by
  induction m with
  | nil =>
    by_cases h : k2 = k
    · subst h; simp [mapAssign, keyCount]
    · have hb : (k == k2) = false := by simp [show ¬ k = k2 from fun e => h e.symm]
      simp [mapAssign, keyCount, List.filter_cons, hb, h]
  | cons e rest ih =>
    by_cases hek : e.1 = k
    · rw [mapAssign_cons_eq e rest k v hek, ih]
      by_cases h2 : k2 = k
      · simp [h2]
      · have he2 : ¬ e.1 = k2 := by rw [hek]; exact fun e2 => h2 e2.symm
        rw [keyCount_cons e rest k2]
        simp [h2, he2]
    · rw [mapAssign_cons_ne e rest k v hek,
         keyCount_cons e (mapAssign rest k v) k2, keyCount_cons e rest k2, ih]
      by_cases h2 : k2 = k
      · have he2 : ¬ e.1 = k2 := fun e2 => hek (e2.trans h2)
        simp [h2, he2, hek]
      · simp [h2]

/-- The fold `foldTable` unfolds one entry at a time. -/
theorem foldTable_cons (p : List Char) (rest : List (List Char)) (m0 : MacTable) :
    foldTable (p :: rest) m0 =
      foldTable rest
        (match entryKV p with | some kv => mapAssign m0 kv.1 kv.2 | none => m0) := rfl

/-- The fold `lastAccum` unfolds one entry at a time. -/
theorem lastAccum_cons (p : List Char) (rest : List (List Char)) (k : List Nat)
    (a : Option (List Nat)) :
    lastAccum (p :: rest) k a =
      lastAccum rest k
        (match entryKV p with
         | some kv => if kv.1 = k then some kv.2 else a
         | none => a) := rfl

/-- When every entry is blank or valid, the parsing loop succeeds and
builds exactly the fold of the per-entry assignments. -/
theorem parseMappingLoop_ok (pairs : List (List Char)) (m0 : MacTable)
    (h : ∀ p ∈ pairs, trimSpace p = [] ∨ entryKV p ≠ none) :
    parseMappingLoop pairs m0 = .ok (foldTable pairs m0) := by
  induction pairs generalizing m0 with
  | nil => rfl
  | cons p rest ih =>
    have hrest : ∀ q ∈ rest, trimSpace q = [] ∨ entryKV q ≠ none :=
      fun q hq => h q (List.mem_cons_of_mem p hq)
    by_cases hq : trimSpace p = []
    · have hekv : entryKV p = none := by simp [entryKV, hq]
      rw [foldTable_cons]
      simp only [hekv]
      rw [show parseMappingLoop (p :: rest) m0 = parseMappingLoop rest m0 from by
        simp [parseMappingLoop, hq]]
      exact ih m0 hrest
    · have he : entryKV p ≠ none := ((h p (List.mem_cons_self p rest)).resolve_left hq)
      by_cases hlen : (splitN2 '=' (trimSpace p)).length = 2
      · obtain ⟨a, b, hab⟩ := len2_cases (List Char) (splitN2 '=' (trimSpace p)) hlen
        cases hg : goParseMAC (trimSpace a) with
        | none => exact absurd (by simp [entryKV, hq, hab, hg]) he
        | some mac =>
          cases hip : goTo4 (goParseIP (trimSpace b)) with
          | none => exact absurd (by simp [entryKV, hq, hab, hg, hip]) he
          | some ip =>
            have hekv : entryKV p = some (mac.take 6, ip.take 4) := by
              simp [entryKV, hq, hab, hg, hip]
            rw [foldTable_cons]
            simp only [hekv]
            rw [show parseMappingLoop (p :: rest) m0 =
                parseMappingLoop rest (mapAssign m0 (mac.take 6) (ip.take 4)) from by
              simp [parseMappingLoop, hq, hab, hg, hip]]
            exact ih _ hrest
      · exact absurd (by simp [entryKV, hq, hlen]) he

/-- Lookup in the folded table is the last valid binding for the key,
falling back to the initial table. -/
theorem foldTable_lookup (pairs : List (List Char)) (m0 : MacTable) (k : List Nat) :
    mapLookup (foldTable pairs m0) k = lastAccum pairs k (mapLookup m0 k) := by
  induction pairs generalizing m0 with
  | nil => rfl
  | cons p rest ih =>
    rw [foldTable_cons, lastAccum_cons]
    cases he : entryKV p with
    | none => exact ih m0
    | some kv =>
      rw [ih (mapAssign m0 kv.1 kv.2)]
      rw [mapLookup_mapAssign]
      by_cases h : kv.1 = k
      · simp [h]
      · simp [h, show ¬ k = kv.1 from fun e => h e.symm]

/-- The folded table holds at most one entry per key. -/
theorem foldTable_keyCount (pairs : List (List Char)) (m0 : MacTable) (k : List Nat) :
    keyCount (foldTable pairs m0) k ≤ max (keyCount m0 k) 1 := by
  induction pairs generalizing m0 with
  | nil => exact le_max_left _ _
  | cons p rest ih =>
    rw [foldTable_cons]
    cases he : entryKV p with
    | none => exact ih m0
    | some kv =>
      refine le_trans (ih (mapAssign m0 kv.1 kv.2)) ?_
      rw [keyCount_mapAssign]
      by_cases h : k = kv.1
      · simp [h]
      · simp [h]

/-- Claim C9: for every configuration whose entries are all blank or
valid (in particular when the same MAC occurs in several valid
entries), parsing succeeds, the resulting table has at most one entry
per key, and each key is mapped to the value of the LAST valid entry
carrying it, in input order (last-write-wins). -/
theorem c9_last_write_wins (s : List Char)
    (hvalid : ∀ p ∈ splitOnChar ',' s, trimSpace p = [] ∨ entryKV p ≠ none) :
    parseMapping s = .ok (foldTable (splitOnChar ',' s) []) ∧
    ∀ k, keyCount (foldTable (splitOnChar ',' s) []) k ≤ 1 ∧
      mapLookup (foldTable (splitOnChar ',' s) []) k = lastIPFor (splitOnChar ',' s) k := by
  constructor
  · by_cases hs : s = []
    · subst hs; rfl
    · simp only [parseMapping, if_neg hs]
      exact parseMappingLoop_ok _ [] hvalid
  · intro k
    constructor
    · have h := foldTable_keyCount (splitOnChar ',' s) [] k
      simpa [keyCount] using h
    · have h := foldTable_lookup (splitOnChar ',' s) [] k
      simpa [mapLookup, lastIPFor] using h

/-- Claim C9, witness: the duplicated-MAC example from the
specification parses to the single entry holding the second value. -/
theorem c9_last_write_wins_witness :
    parseMapping ("aa:bb:cc:dd:ee:ff=10.0.0.5,aa:bb:cc:dd:ee:ff=10.0.0.6".toList) =
      .ok [([170, 187, 204, 221, 238, 255], [10, 0, 0, 6])] ∧
    keyCount [([170, 187, 204, 221, 238, 255], [10, 0, 0, 6])]
      [170, 187, 204, 221, 238, 255] = 1 := by
  have h := c9_last_write_wins
    ("aa:bb:cc:dd:ee:ff=10.0.0.5,aa:bb:cc:dd:ee:ff=10.0.0.6".toList) (by decide)
  exact ⟨h.1.trans (by rfl), by decide⟩
